import Mathlib

/-!
# Verification of the S3 bulk downloader (`s3-downloader.js`)

A shallow embedding of the repository's single source file.  JavaScript
strings are modelled as `List Char`; the Node `path` module's posix
`join`/`normalize`/`dirname` and JavaScript's `String.replace` (first
occurrence) are reproduced from their documented algorithms; the AWS
client is modelled as a `Store` of page chains (the continuation-token
loop walks the chain in order) plus a per-key result for `GetObject`;
the local filesystem is a record of the file and directory paths that
exist.  The coordinator `downloadFromS3`, the paginators `listFolders`
and `listAllFiles` and the fetcher `downloadFile` mirror the source
functions of the same names.
-/

set_option autoImplicit false

/-- JavaScript strings, modelled as lists of characters. -/
abbrev Str := List Char

/-- Literal helper: a Lean string literal as a `Str`. -/
def strL (s : String) : Str := s.toList

/-- Split a string at every `'/'` (JS `path` inner segmentation;
also `String.prototype.split('/')`).  Always returns a non-empty list. -/
def splitSlash : Str → List Str
  | [] => [[]]
  | c :: cs =>
    if c = '/' then [] :: splitSlash cs
    else
      match splitSlash cs with
      | [] => [[c]]
      | s :: ss => (c :: s) :: ss

/-- Rejoin segments with `'/'`: the inverse of `splitSlash`. -/
def joinSegs : List Str → Str
  | [] => []
  | [s] => s
  | s :: ss => s ++ '/' :: joinSegs ss

/-- One step of Node's `normalizeString`: process a single path segment
against the accumulated output segments (`'.'` and empty segments are
dropped, `'..'` pops unless nothing poppable and `allowAboveRoot`). -/
def normStep (allowAboveRoot : Bool) (acc : List Str) (s : Str) : List Str :=
  if s = [] ∨ s = ['.'] then acc
  else if s = ['.', '.'] then
    if acc ≠ [] ∧ acc.getLast? ≠ some ['.', '.'] then acc.dropLast
    else if allowAboveRoot then acc ++ [s]
    else acc
  else acc ++ [s]

/-- Node `path.posix` `normalizeString`, at segment granularity. -/
def normalizeSegs (allowAboveRoot : Bool) (l : List Str) : List Str :=
  l.foldl (normStep allowAboveRoot) []

/-- Node `path.posix.normalize`. -/
def pathNormalize (p : Str) : Str :=
  if p = [] then ['.']
  else
    let isAbs := p.head? = some '/'
    let trailing := p.getLast? = some '/'
    let body := joinSegs (normalizeSegs (!decide isAbs) (splitSlash p))
    let body1 := if body = [] ∧ ¬ isAbs then ['.'] else body
    let body2 := if body1 ≠ [] ∧ trailing then body1 ++ ['/'] else body1
    if isAbs then '/' :: body2 else body2

/-- Node `path.posix.join` restricted to two arguments, as used at
`path.join(DOWNLOAD_DIR, relativePath)`: empty parts are dropped, the
rest are joined with `'/'` and the result is normalized. -/
def pathJoin (a b : Str) : Str :=
  if a = [] ∧ b = [] then ['.']
  else if a = [] then pathNormalize b
  else if b = [] then pathNormalize a
  else pathNormalize (a ++ '/' :: b)

/-- JavaScript `s.replace(pat, rep)` with a string pattern: replace the
first occurrence of `pat` in `s`, or return `s` unchanged if absent. -/
def jsReplace (s pat rep : Str) : Str :=
  match s with
  | [] => if pat.isPrefixOf ([] : Str) then rep else []
  | c :: cs =>
    if pat.isPrefixOf (c :: cs) then rep ++ (c :: cs).drop pat.length
    else c :: jsReplace cs pat rep

/-- Node `path.posix.dirname`: ignore a trailing run of slashes, then
cut just before the last slash; `'.'` when there is no usable slash,
`'/'` (resp. `'//'`) for root-anchored edge cases. -/
def dirname (p : Str) : Str :=
  let hasRoot := p.head? = some '/'
  let r2 := (p.reverse.dropWhile (· = '/')).dropWhile (· ≠ '/')
  if r2.length ≤ 1 then
    (if hasRoot then ['/'] else ['.'])
  else if hasRoot ∧ r2.length - 1 = 1 then ['/', '/']
  else p.take (r2.length - 1)

example : pathJoin (strL "out") (strL "a/b/c.json") = strL "out/a/b/c.json" := by decide
example : pathJoin (strL "./downloads") (strL "a//b.json") = strL "downloads/a/b.json" := by decide
example : jsReplace (strL "base/a/b.c") (strL "base/") [] = strL "a/b.c" := by decide
example : dirname (strL "out/m/r/a.json") = strL "out/m/r" := by decide
example : dirname (strL "out") = strL "." := by decide
example : dirname (strL "/a") = strL "/" := by decide

/-- One response page of `ListObjectsV2` (the fields the script reads:
`CommonPrefixes` and `Contents`, projected to their key strings).  A
provider's continuation-token chain is modelled as the `List Page` in
chain order; `IsTruncated`/`NextContinuationToken` are captured by list
position (the last page is the untruncated one). -/
structure Page where
  commonPrefixes : List Str
  contents : List Str
deriving DecidableEq

/-- Result of `GetObjectCommand` + streaming for one key: the get call
itself may reject, the body stream may fail mid-copy (after the
destination file was created), or everything succeeds. -/
inductive GetResult
  | getError
  | streamError
  | ok
deriving DecidableEq

/-- The remote store: page chains for delimiter listings (`listFolders`)
and plain listings (`listAllFiles`) — `.error` models a rejected listing
call — plus the per-key `GetObject` behaviour. -/
structure Store where
  listDelim : Str → Except Unit (List Page)
  listPlain : Str → Except Unit (List Page)
  getObject : Str → GetResult

/-- The local filesystem: which file paths and directory paths exist. -/
structure FS where
  files : List Str
  dirs : List Str
deriving DecidableEq

/-- `fs.existsSync(p)`: true when `p` exists as a file or directory. -/
def existsFS (fs : FS) (p : Str) : Bool :=
  decide (p ∈ fs.files) || decide (p ∈ fs.dirs)

/-- The chain of directories created by `fs.mkdirSync(d, recursive)`:
`d` and its ancestors up to `'.'` or `'/'` (fuel-bounded `dirname`
iteration; `dirname` strictly shortens relative multi-segment paths). -/
def dirChain : Nat → Str → List Str
  | 0, _ => []
  | fuel + 1, d =>
    if d = ['.'] ∨ d = ['/'] ∨ d = [] then []
    else d :: dirChain fuel (dirname d)

/-- `fs.mkdirSync(d, { recursive: true })`. -/
def mkdirRec (fs : FS) (d : Str) : FS :=
  { fs with dirs := fs.dirs ++ dirChain (d.length + 1) d }

/-- The value returned by `downloadFile`: `true` (downloaded),
`'skipped'`, or `false` (failed), as a closed variant. -/
inductive Outcome
  | success
  | skipped
  | failed
deriving DecidableEq

/-- `downloadFile(key, localPath)`: skip if the local path exists;
otherwise get the object (a rejected get is caught with no filesystem
effect), create the parent directory if missing, and stream the body to
disk (a failed stream is caught, leaving the truncated destination
file).  The surrounding `try`/`catch` makes every outcome a value. -/
def downloadFile (store : Store) (fs : FS) (key localPath : Str) : Outcome × FS :=
  if existsFS fs localPath then (.skipped, fs)
  else
    match store.getObject key with
    | .getError => (.failed, fs)
    | .streamError =>
      let dir := dirname localPath
      let fs1 := if existsFS fs dir then fs else mkdirRec fs dir
      (.failed, { fs1 with files := fs1.files ++ [localPath] })
    | .ok =>
      let dir := dirname localPath
      let fs1 := if existsFS fs dir then fs else mkdirRec fs dir
      (.success, { fs1 with files := fs1.files ++ [localPath] })

/-- The run counters of `downloadFromS3`, with the source's names. -/
structure Stats where
  totalDownloaded : Nat
  totalFailed : Nat
  totalFolders : Nat
  totalRecordFolders : Nat
  totalSkipped : Nat
deriving DecidableEq

/-- All counters start at zero. -/
def initStats : Stats := ⟨0, 0, 0, 0, 0⟩

/-- The `if (success === true) ... else if (success === 'skipped') ...
else ...` tallying after each `downloadFile` call. -/
def tally (st : Stats) (o : Outcome) : Stats :=
  match o with
  | .success => { st with totalDownloaded := st.totalDownloaded + 1 }
  | .skipped => { st with totalSkipped := st.totalSkipped + 1 }
  | .failed => { st with totalFailed := st.totalFailed + 1 }

/-- The configuration constants of the script. -/
structure Config where
  s3BasePrefix : Str
  downloadDir : Str
  mainFolders : List Str
  foldersToDownload : List Str
  jsonFilesToDownload : List Str

/-- The configuration hard-coded in the source file. -/
def defaultConfig : Config where
  s3BasePrefix := strL "gis-data/folder/"
  downloadDir := strL "./downloads"
  mainFolders := [strL "folder1", strL "folder2", strL "folder3"]
  foldersToDownload := [strL "videos/", strL "photos/"]
  jsonFilesToDownload := [strL "config.json", strL "metadata.json"]

/-- The local-path derivation used in both download loops:
`path.join(DOWNLOAD_DIR, fileKey.replace(S3_BASE_PREFIX, ''))`. -/
def derivedLocalPath (base root key : Str) : Str :=
  pathJoin root (jsReplace key base [])

/-- `derivedLocalPath` applied to a configuration. -/
def localPathOf (cfg : Config) (key : Str) : Str :=
  derivedLocalPath cfg.s3BasePrefix cfg.downloadDir key

/-- `folders.add(item.Prefix)` on a JS `Set` (insertion order kept). -/
def setAdd (s : List Str) (x : Str) : List Str :=
  if x ∈ s then s else s ++ [x]

/-- `listFolders(prefix)`: the `do`/`while (continuationToken)` loop that
accumulates every page's `CommonPrefixes` into a `Set`, returned as
`Array.from(folders)`. -/
def listFolders (pages : List Page) : List Str :=
  pages.foldl (fun acc page => page.commonPrefixes.foldl setAdd acc) []

/-- `listAllFiles(prefix)`: the `do`/`while (continuationToken)` loop
that pushes every page's `Contents` keys in order. -/
def listAllFiles (pages : List Page) : List Str :=
  pages.foldl (fun acc page => acc ++ page.contents) []

/-- One item of either download loop: derive the local path, call
`downloadFile`, fold the outcome into the counters. -/
def fetchOne (store : Store) (cfg : Config) (acc : Stats × FS) (key : Str) : Stats × FS :=
  let r := downloadFile store acc.2 key (localPathOf cfg key)
  (tally acc.1 r.1, r.2)

/-- The `for (const targetFolder of FOLDERS_TO_DOWNLOAD)` body: list all
files under `subFolder + targetFolder`, drop folder-marker keys (those
ending in `'/'`), and download each survivor ( `actualFiles.length === 0`
just continues, which is the empty fold). -/
def runTarget (store : Store) (cfg : Config) (sub : Str) (acc : Stats × FS) (target : Str) :
    Except Unit (Stats × FS) :=
  match store.listPlain (sub ++ target) with
  | .error e => .error e
  | .ok pages =>
    .ok (((listAllFiles pages).filter (fun k => ! decide (k.getLast? = some '/'))).foldl
      (fetchOne store cfg) acc)

/-- A `for`-loop whose body may reject: run `f` on each element in
order, threading the accumulator; a rejection aborts the loop and
propagates (the behaviour of `await` inside `for` without `try`). -/
def foldExcept {α : Type} (f : (Stats × FS) → α → Except Unit (Stats × FS)) :
    List α → (Stats × FS) → Except Unit (Stats × FS)
  | [], acc => .ok acc
  | x :: xs, acc =>
    match f acc x with
    | .error e => .error e
    | .ok acc2 => foldExcept f xs acc2

/-- The `for (const subFolder of subFolders)` body: bump
`totalRecordFolders`, download the configured JSON files, then each
configured target folder. -/
def runSubfolder (store : Store) (cfg : Config) (acc : Stats × FS) (sub : Str) :
    Except Unit (Stats × FS) :=
  foldExcept (runTarget store cfg sub) cfg.foldersToDownload
    (cfg.jsonFilesToDownload.foldl (fun a j => fetchOne store cfg a (sub ++ j))
      ({ acc.1 with totalRecordFolders := acc.1.totalRecordFolders + 1 }, acc.2))

/-- The `for (const mainFolder of MAIN_FOLDERS)` body: list the
subfolders under `S3_BASE_PREFIX + mainFolder + '/'`; `continue` without
touching `totalFolders` when none were found, otherwise process every
subfolder and then bump `totalFolders`. -/
def runMainFolder (store : Store) (cfg : Config) (acc : Stats × FS) (mainFolder : Str) :
    Except Unit (Stats × FS) :=
  match store.listDelim (cfg.s3BasePrefix ++ mainFolder ++ ['/']) with
  | .error e => .error e
  | .ok pages =>
    if listFolders pages = [] then .ok acc
    else
      match foldExcept (runSubfolder store cfg) (listFolders pages) acc with
      | .error e => .error e
      | .ok acc1 => .ok ({ acc1.1 with totalFolders := acc1.1.totalFolders + 1 }, acc1.2)

/-- `downloadFromS3()`: zero counters, then process every main folder.
An unhandled listing rejection propagates as `.error`. -/
def downloadFromS3 (store : Store) (cfg : Config) (fs : FS) : Except Unit (Stats × FS) :=
  foldExcept (runMainFolder store cfg) cfg.mainFolders (initStats, fs)

/-- `downloadFromS3().catch(error => process.exit(1))`: the process exit
code is 1 exactly when the run rejected, 0 when it completed. -/
def scriptExitCode (store : Store) (cfg : Config) (fs : FS) : Nat :=
  match downloadFromS3 store cfg fs with
  | .ok _ => 0
  | .error _ => 1

/-- Number of items the run plans for one target folder of a subfolder. -/
def plannedTargetCount (store : Store) (sub target : Str) : Nat :=
  match store.listPlain (sub ++ target) with
  | .error _ => 0
  | .ok pages =>
    ((listAllFiles pages).filter (fun k => ! decide (k.getLast? = some '/'))).length

/-- Number of items the run plans for one subfolder. -/
def plannedSubCount (store : Store) (cfg : Config) (sub : Str) : Nat :=
  cfg.jsonFilesToDownload.length + (cfg.foldersToDownload.map (plannedTargetCount store sub)).sum

/-- The subfolders the run discovers for one main folder. -/
def subFoldersOf (store : Store) (cfg : Config) (mainFolder : Str) : List Str :=
  match store.listDelim (cfg.s3BasePrefix ++ mainFolder ++ ['/']) with
  | .error _ => []
  | .ok pages => listFolders pages

/-- Number of items the run plans for one main folder. -/
def plannedMainCount (store : Store) (cfg : Config) (mainFolder : Str) : Nat :=
  ((subFoldersOf store cfg mainFolder).map (plannedSubCount store cfg)).sum

/-- Total number of TransferItems the whole run attempts. -/
def plannedCount (store : Store) (cfg : Config) : Nat :=
  (cfg.mainFolders.map (plannedMainCount store cfg)).sum

/-- Sum of the three per-item outcome counters. -/
def sum3 (st : Stats) : Nat := st.totalDownloaded + st.totalSkipped + st.totalFailed

/-- Componentwise order on the counters. -/
def statsLe (a b : Stats) : Prop :=
  a.totalDownloaded ≤ b.totalDownloaded ∧ a.totalFailed ≤ b.totalFailed ∧
  a.totalFolders ≤ b.totalFolders ∧ a.totalRecordFolders ≤ b.totalRecordFolders ∧
  a.totalSkipped ≤ b.totalSkipped

/-- Componentwise containment of filesystems (paths only ever appear). -/
def fsLe (a b : FS) : Prop := a.files ⊆ b.files ∧ a.dirs ⊆ b.dirs

/-- A store realizing the spec's end-to-end scenario. -/
def demoStore : Store where
  listDelim := fun p =>
    if p = strL "base/folder1/" then .ok [⟨[strL "base/folder1/rec-1/"], []⟩] else .ok []
  listPlain := fun p =>
    if p = strL "base/folder1/rec-1/photos/" then
      .ok [⟨[], [strL "base/folder1/rec-1/photos/img1.jpg"]⟩]
    else .ok []
  getObject := fun _ => .ok

/-- The configuration of the spec's end-to-end scenario. -/
def demoConfig : Config where
  s3BasePrefix := strL "base/"
  downloadDir := strL "out"
  mainFolders := [strL "folder1"]
  foldersToDownload := [strL "photos/"]
  jsonFilesToDownload := [strL "metadata.json"]

/-- A path segment in normal form: non-empty and not a dot segment. -/
def NormalSeg (t : Str) : Prop := t ≠ [] ∧ t ≠ ['.'] ∧ t ≠ ['.', '.']

instance (t : Str) : Decidable (NormalSeg t) := by unfold NormalSeg; infer_instance

/-- A relative path in normal form: every slash-separated segment is a
`NormalSeg` (no empty, `'.'` or `'..'` segments, hence also no leading
or trailing slash and not empty). -/
def NormalRel (rel : Str) : Prop := ∀ t ∈ splitSlash rel, NormalSeg t

instance (rel : Str) : Decidable (NormalRel rel) := by unfold NormalRel; infer_instance

theorem splitSlash_ne_nil (s : Str) : splitSlash s ≠ [] := by
  match s with
  | [] => simp [splitSlash]
  | c :: cs =>
    simp only [splitSlash]
    split
    · simp
    · split <;> simp

theorem splitSlash_exists_cons (s : Str) : ∃ a as, splitSlash s = a :: as := by
  cases h : splitSlash s with
  | nil => exact absurd h (splitSlash_ne_nil s)
  | cons a as => exact ⟨a, as, rfl⟩

theorem splitSlash_append (p q : Str) :
    splitSlash (p ++ '/' :: q) = splitSlash p ++ splitSlash q := by
  induction p with
  | nil => simp [splitSlash]
  | cons c cs ih =>
    by_cases hc : c = '/'
    · subst hc
      simp [splitSlash, ih]
    · obtain ⟨a, as, ha⟩ := splitSlash_exists_cons cs
      have ih2 : splitSlash (cs ++ '/' :: q) = a :: (as ++ splitSlash q) := by
        rw [ih, ha, List.cons_append]
      simp only [List.cons_append, splitSlash, List.append_eq, if_neg hc, ih2, ha]

theorem joinSegs_splitSlash (s : Str) : joinSegs (splitSlash s) = s := by
  induction s with
  | nil => rfl
  | cons c cs ih =>
    by_cases hc : c = '/'
    · subst hc
      obtain ⟨a, as, ha⟩ := splitSlash_exists_cons cs
      rw [ha] at ih
      simp only [splitSlash, if_pos rfl, ha, joinSegs, ih]
      simp
    · obtain ⟨a, as, ha⟩ := splitSlash_exists_cons cs
      rw [ha] at ih
      simp only [splitSlash, if_neg hc, ha]
      cases as with
      | nil => simp only [joinSegs] at ih ⊢; rw [ih]
      | cons b bs =>
        simp only [joinSegs] at ih ⊢
        rw [List.cons_append, ih]

theorem not_slash_mem_splitSlash (s : Str) : ∀ t ∈ splitSlash s, '/' ∉ t := by
  induction s with
  | nil => simp [splitSlash]
  | cons c cs ih =>
    by_cases hc : c = '/'
    · subst hc
      simp only [splitSlash, if_pos rfl]
      intro t ht
      rcases List.mem_cons.mp ht with h | h
      · subst h; simp
      · exact ih t h
    · obtain ⟨a, as, ha⟩ := splitSlash_exists_cons cs
      simp only [splitSlash, if_neg hc, ha]
      intro t ht
      rcases List.mem_cons.mp ht with h | h
      · subst h
        intro hmem
        rcases List.mem_cons.mp hmem with h | h
        · exact hc h.symm
        · exact ih a (ha ▸ List.mem_cons_self a as) h
      · exact ih t (ha ▸ List.mem_cons_of_mem a h)

theorem normStep_normal (allow : Bool) (acc : List Str) (t : Str) (h : NormalSeg t) :
    normStep allow acc t = acc ++ [t] := by
  obtain ⟨h1, h2, h3⟩ := h
  simp only [normStep]
  rw [if_neg (by simp [h1, h2]), if_neg h3]

theorem foldl_normStep_normal (allow : Bool) (l : List Str) (acc : List Str)
    (h : ∀ t ∈ l, NormalSeg t) : l.foldl (normStep allow) acc = acc ++ l := by
  induction l generalizing acc with
  | nil => simp
  | cons a as ih =>
    rw [List.foldl_cons, normStep_normal allow acc a (h a (List.mem_cons_self a as)),
      ih (acc ++ [a]) (fun t ht => h t (List.mem_cons_of_mem a ht))]
    simp

theorem normalizeSegs_append_normal (allow : Bool) (A S : List Str)
    (h : ∀ t ∈ S, NormalSeg t) :
    normalizeSegs allow (A ++ S) = normalizeSegs allow A ++ S := by
  unfold normalizeSegs
  rw [List.foldl_append, foldl_normStep_normal allow S _ h]

theorem normStep_mem_ne_nil (allow : Bool) (acc : List Str) (s : Str)
    (h : ∀ t ∈ acc, t ≠ []) : ∀ t ∈ normStep allow acc s, t ≠ [] := by
  intro t ht
  unfold normStep at ht
  by_cases h1 : s = [] ∨ s = ['.']
  · rw [if_pos h1] at ht
    exact h t ht
  · rw [if_neg h1] at ht
    by_cases h2 : s = ['.', '.']
    · rw [if_pos h2] at ht
      by_cases h3 : acc ≠ [] ∧ acc.getLast? ≠ some ['.', '.']
      · rw [if_pos h3] at ht
        exact h t ((List.dropLast_sublist acc).subset ht)
      · rw [if_neg h3] at ht
        cases allow with
        | true =>
          rw [if_pos rfl] at ht
          rcases List.mem_append.mp ht with hm | hm
          · exact h t hm
          · simp only [List.mem_singleton] at hm
            subst hm
            rw [h2]
            simp
        | false =>
          rw [if_neg (by simp)] at ht
          exact h t ht
    · rw [if_neg h2] at ht
      rcases List.mem_append.mp ht with hm | hm
      · exact h t hm
      · simp only [List.mem_singleton] at hm
        subst hm
        intro hnil
        exact h1 (Or.inl hnil)

theorem normalizeSegs_mem_ne_nil (allow : Bool) (l : List Str) :
    ∀ t ∈ normalizeSegs allow l, t ≠ [] := by
  unfold normalizeSegs
  have main : ∀ (l : List Str) (acc : List Str), (∀ t ∈ acc, t ≠ []) →
      ∀ t ∈ l.foldl (normStep allow) acc, t ≠ [] := by
    intro l
    induction l with
    | nil => intro acc hacc; simpa using hacc
    | cons a as ih =>
      intro acc hacc
      rw [List.foldl_cons]
      exact ih (normStep allow acc a) (normStep_mem_ne_nil allow acc a hacc)
  exact main l [] (by simp)

theorem joinSegs_cons_cons (a b : Str) (l : List Str) :
    joinSegs (a :: b :: l) = a ++ '/' :: joinSegs (b :: l) := rfl

theorem joinSegs_ne_nil (L : List Str) (hL : L ≠ []) (h : ∀ t ∈ L, t ≠ []) :
    joinSegs L ≠ [] := by
  match L with
  | [s] => exact h s (by simp)
  | a :: b :: l =>
    rw [joinSegs_cons_cons]
    simp

theorem joinSegs_append (A B : List Str) (hA : A ≠ []) (hB : B ≠ []) :
    joinSegs (A ++ B) = joinSegs A ++ '/' :: joinSegs B := by
  induction A with
  | nil => exact absurd rfl hA
  | cons a as ih =>
    cases as with
    | nil =>
      obtain ⟨b, bs, rfl⟩ : ∃ b bs, B = b :: bs := by
        cases B with
        | nil => exact absurd rfl hB
        | cons b bs => exact ⟨b, bs, rfl⟩
      simp [joinSegs_cons_cons, joinSegs]
    | cons a2 as2 =>
      have ih2 := ih (by simp)
      have h1 : (a :: a2 :: as2) ++ B = a :: ((a2 :: as2) ++ B) := by simp
      obtain ⟨c, cs, hc⟩ : ∃ c cs, (a2 :: as2) ++ B = c :: cs := ⟨a2, as2 ++ B, by simp⟩
      rw [h1, hc, joinSegs_cons_cons a c cs, ← hc, ih2, joinSegs_cons_cons]
      simp

theorem getLast?_joinSegs (L : List Str) (hL : L ≠ []) (hall : ∀ t ∈ L, t ≠ []) :
    (joinSegs L).getLast? = (L.getLast hL).getLast? := by
  induction L with
  | nil => exact absurd rfl hL
  | cons a as ih =>
    cases as with
    | nil => simp [joinSegs]
    | cons b bs =>
      have hbs : (b :: bs : List Str) ≠ [] := by simp
      have ih2 := ih hbs (fun t ht => hall t (List.mem_cons_of_mem a ht))
      rw [joinSegs_cons_cons]
      have hjoin_ne : joinSegs (b :: bs) ≠ [] :=
        joinSegs_ne_nil (b :: bs) hbs (fun t ht => hall t (List.mem_cons_of_mem a ht))
      rw [List.getLast?_append_of_ne_nil a (by simp),
        show ('/' :: joinSegs (b :: bs) : Str) = ['/'] ++ joinSegs (b :: bs) by simp,
        List.getLast?_append_of_ne_nil ['/'] hjoin_ne, ih2]
      rw [List.getLast_cons hbs]

theorem normalRel_ne_nil (rel : Str) (h : NormalRel rel) : rel ≠ [] := by
  intro hnil
  subst hnil
  have := h [] (by simp [splitSlash])
  exact this.1 rfl

theorem normalRel_getLast_ne_slash (rel : Str) (h : NormalRel rel) :
    rel.getLast? ≠ some '/' := by
  have hsegs := splitSlash_ne_nil rel
  have hne : ∀ t ∈ splitSlash rel, t ≠ [] := fun t ht => (h t ht).1
  have hlast := getLast?_joinSegs (splitSlash rel) hsegs hne
  rw [joinSegs_splitSlash rel] at hlast
  rw [hlast]
  intro hcontra
  exact not_slash_mem_splitSlash rel _ (List.getLast_mem hsegs)
    (List.mem_of_getLast?_eq_some hcontra)

theorem pathJoin_normal_eq (root rel : Str) (hroot : root ≠ [])
    (habs : root.head? ≠ some '/') (hrel : NormalRel rel) :
    pathJoin root rel = joinSegs (normalizeSegs true (splitSlash root) ++ splitSlash rel) := by
  have hrelne : rel ≠ [] := normalRel_ne_nil rel hrel
  unfold pathJoin
  rw [if_neg (fun hand => hroot hand.1), if_neg hroot, if_neg hrelne]
  have hne : root ++ '/' :: rel ≠ [] := by
    cases root with
    | nil => exact absurd rfl hroot
    | cons r rs => simp
  unfold pathNormalize
  rw [if_neg hne]
  have hhead : (root ++ '/' :: rel).head? = root.head? :=
    List.head?_append_of_ne_nil root hroot
  have hlastapp : (root ++ '/' :: rel).getLast? = rel.getLast? := by
    rw [show root ++ '/' :: rel = (root ++ ['/']) ++ rel by simp,
      List.getLast?_append_of_ne_nil _ hrelne]
  have hsplit : splitSlash (root ++ '/' :: rel) = splitSlash root ++ splitSlash rel :=
    splitSlash_append root rel
  have hnorm : normalizeSegs true (splitSlash root ++ splitSlash rel)
      = normalizeSegs true (splitSlash root) ++ splitSlash rel :=
    normalizeSegs_append_normal true _ _ hrel
  have hbody_ne : joinSegs (normalizeSegs true (splitSlash root) ++ splitSlash rel) ≠ [] := by
    apply joinSegs_ne_nil
    · intro happ
      exact splitSlash_ne_nil rel (List.append_eq_nil.mp happ).2
    · intro t ht
      rcases List.mem_append.mp ht with hm | hm
      · exact normalizeSegs_mem_ne_nil true _ t hm
      · exact (hrel t hm).1
  simp only [hhead, hlastapp, hsplit, decide_eq_false habs, Bool.not_false, hnorm]
  rw [if_neg habs,
    if_neg (fun hand => normalRel_getLast_ne_slash rel hrel hand.2),
    if_neg (fun hand => hbody_ne hand.1)]

theorem jsReplace_of_isPrefixOf (s pat rep : Str) (h : pat.isPrefixOf s = true) :
    jsReplace s pat rep = rep ++ s.drop pat.length := by
  cases s with
  | nil =>
    have hp : pat = [] := by
      cases pat with
      | nil => rfl
      | cons p ps => simp [List.isPrefixOf] at h
    subst hp
    simp [jsReplace]
  | cons c cs =>
    unfold jsReplace
    rw [if_pos h]

theorem isPrefixOf_decomp (pat s : Str) (h : pat.isPrefixOf s = true) :
    pat ++ s.drop pat.length = s := by
  obtain ⟨t, rfl⟩ := List.isPrefixOf_iff_prefix.mp h
  rw [List.drop_left]

theorem derivedLocalPath_of_isPrefixOf (base root key : Str)
    (h : base.isPrefixOf key = true) :
    derivedLocalPath base root key = pathJoin root (key.drop base.length) := by
  unfold derivedLocalPath
  rw [jsReplace_of_isPrefixOf key base [] h, List.nil_append]

/-- C1: for every planner-produced remote key (one that begins with the
configured base remote prefix), the derived local path is
`path.join(localRoot, key with the base prefix stripped from the front)`:
the first-occurrence `String.replace` coincides with front-stripping
there; joining a normal-form remainder onto a normal-form relative root
is exactly concatenation with the separator; and in particular remote
key `base/a/b/c.json` with base prefix `base/` and local root `out`
yields `out/a/b/c.json`. -/
theorem c1_path_mapping :
    (∀ base root key : Str, base.isPrefixOf key = true →
      derivedLocalPath base root key = pathJoin root (key.drop base.length))
    ∧ (∀ root rel : Str, root ≠ [] → root.head? ≠ some '/' → NormalRel root → NormalRel rel →
      pathJoin root rel = root ++ '/' :: rel)
    ∧ derivedLocalPath (strL "base/") (strL "out") (strL "base/a/b/c.json")
        = strL "out/a/b/c.json" := by
  refine ⟨derivedLocalPath_of_isPrefixOf, ?_, by decide⟩
  intro root rel hroot habs hrootn hreln
  rw [pathJoin_normal_eq root rel hroot habs hreln]
  have h2 : normalizeSegs true (splitSlash root) = splitSlash root := by
    unfold normalizeSegs
    have := foldl_normStep_normal true (splitSlash root) [] hrootn
    simpa using this
  rw [h2, joinSegs_append _ _ (splitSlash_ne_nil root) (splitSlash_ne_nil rel),
    joinSegs_splitSlash, joinSegs_splitSlash]

/-- Witness for C1 at the spec's concrete instance. -/
theorem c1_path_mapping_witness :
    derivedLocalPath (strL "base/") (strL "out") (strL "base/a/b/c.json")
      = pathJoin (strL "out") ((strL "base/a/b/c.json").drop (strL "base/").length)
    ∧ pathJoin (strL "out") (strL "a/b/c.json") = strL "out" ++ '/' :: strL "a/b/c.json" :=
  ⟨c1_path_mapping.1 (strL "base/") (strL "out") (strL "base/a/b/c.json") (by decide),
   c1_path_mapping.2.1 (strL "out") (strL "a/b/c.json") (by decide) (by decide)
     (by decide) (by decide)⟩

/-- C9 counterexample: with the source's configured base prefix and local
root, the two distinct remote keys `gis-data/folder/a//b.json` and
`gis-data/folder/a/b.json` — both beginning with the base prefix, and
neither a folder marker, so the planner would emit both if the store
listed them — map to the same local path, because `path.join` collapses
the duplicate separator.  The mapping is therefore not injective as
claimed. -/
theorem c9_counterexample :
    derivedLocalPath (strL "gis-data/folder/") (strL "./downloads")
        (strL "gis-data/folder/a//b.json")
      = derivedLocalPath (strL "gis-data/folder/") (strL "./downloads")
        (strL "gis-data/folder/a/b.json")
    ∧ strL "gis-data/folder/a//b.json" ≠ strL "gis-data/folder/a/b.json"
    ∧ (strL "gis-data/folder/").isPrefixOf (strL "gis-data/folder/a//b.json") = true
    ∧ (strL "gis-data/folder/").isPrefixOf (strL "gis-data/folder/a/b.json") = true
    ∧ ¬ (strL "gis-data/folder/a//b.json").getLast? = some '/'
    ∧ ¬ (strL "gis-data/folder/a/b.json").getLast? = some '/' := by
  refine ⟨by decide, by decide, by decide, by decide, by decide, by decide⟩

/-- C9 (amended): the remote-key-to-local-path mapping is a deterministic
pure function of the key, the base prefix and the local root (it is a
Lean function), and it is injective on keys beginning with the base
prefix whose post-prefix remainder is in normal path form (no empty,
`'.'` or `'..'` segments — the exclusions the `path.join` normalization
counterexample forces), for any non-empty, non-absolute local root. -/
theorem c9_injective_on_normal (base root k1 k2 : Str)
    (hroot : root ≠ []) (habs : root.head? ≠ some '/')
    (h1 : base.isPrefixOf k1 = true) (h2 : base.isPrefixOf k2 = true)
    (hn1 : NormalRel (k1.drop base.length)) (hn2 : NormalRel (k2.drop base.length))
    (heq : derivedLocalPath base root k1 = derivedLocalPath base root k2) :
    k1 = k2 := by
  rw [derivedLocalPath_of_isPrefixOf base root k1 h1,
    derivedLocalPath_of_isPrefixOf base root k2 h2,
    pathJoin_normal_eq root _ hroot habs hn1,
    pathJoin_normal_eq root _ hroot habs hn2] at heq
  have hrel : k1.drop base.length = k2.drop base.length := by
    have hjoin : joinSegs (splitSlash (k1.drop base.length))
        = joinSegs (splitSlash (k2.drop base.length)) := by
      cases hRc : normalizeSegs true (splitSlash root) with
      | nil =>
        rw [hRc] at heq
        simpa using heq
      | cons r rs =>
        rw [hRc] at heq
        rw [joinSegs_append _ _ (by simp) (splitSlash_ne_nil _),
          joinSegs_append _ _ (by simp) (splitSlash_ne_nil _)] at heq
        have heq2 := List.append_cancel_left heq
        exact List.cons.inj heq2 |>.2
    calc k1.drop base.length
        = joinSegs (splitSlash (k1.drop base.length)) := (joinSegs_splitSlash _).symm
      _ = joinSegs (splitSlash (k2.drop base.length)) := hjoin
      _ = k2.drop base.length := joinSegs_splitSlash _
  have e1 := isPrefixOf_decomp base k1 h1
  have e2 := isPrefixOf_decomp base k2 h2
  rw [← e1, ← e2, hrel]

/-- Witness for the amended C9 at concrete keys. -/
theorem c9_injective_on_normal_witness :
    strL "gis-data/folder/a/b.json" = strL "gis-data/folder/a/b.json" :=
  c9_injective_on_normal (strL "gis-data/folder/") (strL "./downloads")
    (strL "gis-data/folder/a/b.json") (strL "gis-data/folder/a/b.json")
    (by decide) (by decide) (by decide) (by decide) (by decide) (by decide) rfl

theorem listAllFiles_eq_join (pages : List Page) :
    listAllFiles pages = (pages.map Page.contents).flatten := by
  unfold listAllFiles
  have main : ∀ (ps : List Page) (acc : List Str),
      ps.foldl (fun acc page => acc ++ page.contents) acc
        = acc ++ (ps.map Page.contents).flatten := by
    intro ps
    induction ps with
    | nil => intro acc; simp
    | cons p pstl ih => intro acc; simp [ih, List.append_assoc]
  simpa using main pages []

theorem mem_setAdd (s : List Str) (x y : Str) : y ∈ setAdd s x ↔ y ∈ s ∨ y = x := by
  unfold setAdd
  by_cases hx : x ∈ s
  · rw [if_pos hx]
    constructor
    · exact Or.inl
    · rintro (h | rfl)
      · exact h
      · exact hx
  · rw [if_neg hx]
    simp

theorem nodup_setAdd (s : List Str) (x : Str) (h : s.Nodup) : (setAdd s x).Nodup := by
  unfold setAdd
  by_cases hx : x ∈ s
  · rw [if_pos hx]; exact h
  · rw [if_neg hx]
    simp [List.nodup_append, h, hx]

theorem mem_foldl_setAdd (l : List Str) (acc : List Str) (y : Str) :
    y ∈ l.foldl setAdd acc ↔ y ∈ acc ∨ y ∈ l := by
  induction l generalizing acc with
  | nil => simp
  | cons a as ih =>
    rw [List.foldl_cons, ih, mem_setAdd, or_assoc, List.mem_cons]

theorem nodup_foldl_setAdd (l : List Str) (acc : List Str) (h : acc.Nodup) :
    (l.foldl setAdd acc).Nodup := by
  induction l generalizing acc with
  | nil => simpa
  | cons a as ih => exact ih _ (nodup_setAdd acc a h)

theorem mem_listFolders (pages : List Page) (y : Str) :
    y ∈ listFolders pages ↔ y ∈ (pages.map Page.commonPrefixes).flatten := by
  unfold listFolders
  have main : ∀ (ps : List Page) (acc : List Str),
      y ∈ ps.foldl (fun acc page => page.commonPrefixes.foldl setAdd acc) acc
        ↔ y ∈ acc ∨ y ∈ (ps.map Page.commonPrefixes).flatten := by
    intro ps
    induction ps with
    | nil => intro acc; simp
    | cons p pstl ih =>
      intro acc
      rw [List.foldl_cons, ih, mem_foldl_setAdd]
      simp [or_assoc]
  simpa using main pages []

theorem nodup_listFolders (pages : List Page) : (listFolders pages).Nodup := by
  unfold listFolders
  have main : ∀ (ps : List Page) (acc : List Str), acc.Nodup →
      (ps.foldl (fun acc page => page.commonPrefixes.foldl setAdd acc) acc).Nodup := by
    intro ps
    induction ps with
    | nil => intro acc h; simpa
    | cons p pstl ih => intro acc h; exact ih _ (nodup_foldl_setAdd _ _ h)
  exact main pages [] (by simp)

/-- C3: over any continuation chain of provider pages, `listAllFiles`
returns exactly the page-by-page concatenation of all pages' keys in
provider order, with no filtering; and `listFolders` returns exactly the
de-duplicated union of all pages' common prefixes (no omission, no
duplicate).  Both consume the entire chain — the loop stops only at the
final (untruncated) page — and neither exposes a partial page. -/
theorem c3_pagination_complete (pages : List Page) :
    listAllFiles pages = (pages.map Page.contents).flatten
    ∧ (listFolders pages).Nodup
    ∧ ∀ y : Str, y ∈ listFolders pages ↔ y ∈ (pages.map Page.commonPrefixes).flatten :=
  ⟨listAllFiles_eq_join pages, nodup_listFolders pages, fun y => mem_listFolders pages y⟩

/-- A store whose every get call rejects and whose listings are empty. -/
def failStore : Store where
  listDelim := fun _ => .ok []
  listPlain := fun _ => .ok []
  getObject := fun _ => .getError

theorem sum3_tally (st : Stats) (o : Outcome) : sum3 (tally st o) = sum3 st + 1 := by
  cases o <;> simp [tally, sum3] <;> omega

theorem sum3_fetchOne (store : Store) (cfg : Config) (acc : Stats × FS) (k : Str) :
    sum3 (fetchOne store cfg acc k).1 = sum3 acc.1 + 1 :=
  sum3_tally acc.1 (downloadFile store acc.2 k (localPathOf cfg k)).1

theorem sum3_foldl_fetchOne (store : Store) (cfg : Config) (items : List Str)
    (acc : Stats × FS) :
    sum3 (items.foldl (fetchOne store cfg) acc).1 = sum3 acc.1 + items.length := by
  induction items generalizing acc with
  | nil => simp
  | cons k ks ih =>
    rw [List.foldl_cons, ih, sum3_fetchOne]
    simp
    omega

/-- C2: a rejected get call or a failed stream copy inside the fetch is
caught locally and becomes the `Failed` outcome (the fetch is a total
function — it never throws); and a sequence of fetches attempts and
tallies every single item regardless of which items fail: the three
outcome counters grow by exactly the number of items, before and after
any failing item alike. -/
theorem c2_fetch_errors_isolated :
    (∀ (store : Store) (fs : FS) (k p : Str), existsFS fs p = false →
      store.getObject k = .getError ∨ store.getObject k = .streamError →
      (downloadFile store fs k p).1 = .failed)
    ∧ ∀ (store : Store) (cfg : Config) (acc : Stats × FS) (items : List Str),
      sum3 (items.foldl (fetchOne store cfg) acc).1 = sum3 acc.1 + items.length := by
  constructor
  · intro store fs k p hex hget
    rcases hget with hg | hg <;> simp [downloadFile, hex, hg]
  · intro store cfg acc items
    exact sum3_foldl_fetchOne store cfg items acc

/-- Witness for C2: a failing get on an absent local path yields `Failed`,
and a three-item sequence whose middle item fails still tallies all
three items. -/
theorem c2_fetch_errors_isolated_witness :
    (downloadFile failStore ⟨[], []⟩ (strL "k") (strL "p")).1 = Outcome.failed
    ∧ sum3 (([strL "a", strL "b", strL "c"].foldl (fetchOne failStore demoConfig)
        (initStats, ⟨[], []⟩)).1) = sum3 initStats + 3 :=
  ⟨c2_fetch_errors_isolated.1 failStore ⟨[], []⟩ (strL "k") (strL "p") (by decide) (Or.inl rfl),
   c2_fetch_errors_isolated.2 failStore demoConfig (initStats, ⟨[], []⟩)
     [strL "a", strL "b", strL "c"]⟩

/-- C6: when the local path already exists on the filesystem (as any
file or directory, with no size or content check), `downloadFile`
returns `'skipped'` with the filesystem untouched, and the result is
identical for any two stores — the remote store is never contacted. -/
theorem c6_skip_without_remote (s1 s2 : Store) (fs : FS) (k p : Str)
    (h : existsFS fs p = true) :
    downloadFile s1 fs k p = (.skipped, fs)
    ∧ downloadFile s1 fs k p = downloadFile s2 fs k p := by
  constructor <;> simp [downloadFile, h]

/-- Witness for C6 at a concrete filesystem and two different stores. -/
theorem c6_skip_without_remote_witness :
    downloadFile failStore ⟨[strL "p"], []⟩ (strL "k") (strL "p")
      = (Outcome.skipped, ⟨[strL "p"], []⟩)
    ∧ downloadFile failStore ⟨[strL "p"], []⟩ (strL "k") (strL "p")
      = downloadFile demoStore ⟨[strL "p"], []⟩ (strL "k") (strL "p") :=
  c6_skip_without_remote failStore demoStore ⟨[strL "p"], []⟩ (strL "k") (strL "p") (by decide)

/-- C10: when the local path does not exist and the get call itself
fails, the fetch returns `Failed` and the filesystem is returned
completely unchanged — no file and no directory is created, because
`mkdirSync` and the stream write are only reached after a successful
get. -/
theorem c10_get_failure_leaves_fs (store : Store) (fs : FS) (k p : Str)
    (hex : existsFS fs p = false) (hget : store.getObject k = .getError) :
    downloadFile store fs k p = (.failed, fs) := by
  simp [downloadFile, hex, hget]

/-- Witness for C10 on the empty filesystem. -/
theorem c10_get_failure_leaves_fs_witness :
    downloadFile failStore ⟨[], []⟩ (strL "k") (strL "out/p.json")
      = (Outcome.failed, ⟨[], []⟩) :=
  c10_get_failure_leaves_fs failStore ⟨[], []⟩ (strL "k") (strL "out/p.json") (by decide) rfl

theorem sum3_json_fold (store : Store) (cfg : Config) (sub : Str) (jsons : List Str)
    (acc : Stats × FS) :
    sum3 (jsons.foldl (fun a j => fetchOne store cfg a (sub ++ j)) acc).1
      = sum3 acc.1 + jsons.length := by
  induction jsons generalizing acc with
  | nil => simp
  | cons j js ih =>
    rw [List.foldl_cons, ih, sum3_fetchOne]
    simp
    omega

theorem sum3_foldExcept {α : Type} (f : (Stats × FS) → α → Except Unit (Stats × FS))
    (g : α → Nat)
    (hf : ∀ acc x acc2, f acc x = .ok acc2 → sum3 acc2.1 = sum3 acc.1 + g x)
    (l : List α) (acc acc2 : Stats × FS) (h : foldExcept f l acc = .ok acc2) :
    sum3 acc2.1 = sum3 acc.1 + (l.map g).sum := by
  induction l generalizing acc with
  | nil =>
    simp only [foldExcept, Except.ok.injEq] at h
    subst h
    simp
  | cons x xs ih =>
    unfold foldExcept at h
    cases hr : f acc x with
    | error e =>
      simp only [hr] at h
      exact absurd h (by simp)
    | ok accm =>
      simp only [hr] at h
      rw [ih accm h, hf acc x accm hr]
      simp
      omega

theorem sum3_runTarget (store : Store) (cfg : Config) (sub : Str) (acc : Stats × FS)
    (target : Str) (acc2 : Stats × FS) (h : runTarget store cfg sub acc target = .ok acc2) :
    sum3 acc2.1 = sum3 acc.1 + plannedTargetCount store sub target := by
  unfold runTarget at h
  unfold plannedTargetCount
  cases hl : store.listPlain (sub ++ target) with
  | error e =>
    simp only [hl] at h
    exact absurd h (by simp)
  | ok pages =>
    simp only [hl, Except.ok.injEq] at h
    subst h
    simp [sum3_foldl_fetchOne]

theorem sum3_runSubfolder (store : Store) (cfg : Config) (acc : Stats × FS) (sub : Str)
    (acc2 : Stats × FS) (h : runSubfolder store cfg acc sub = .ok acc2) :
    sum3 acc2.1 = sum3 acc.1 + plannedSubCount store cfg sub := by
  unfold runSubfolder at h
  have hmid := sum3_foldExcept (runTarget store cfg sub) (plannedTargetCount store sub)
    (fun a x a2 hh => sum3_runTarget store cfg sub a x a2 hh)
    cfg.foldersToDownload _ acc2 h
  rw [hmid, sum3_json_fold]
  unfold plannedSubCount
  have hbump : sum3 ({ acc.1 with totalRecordFolders := acc.1.totalRecordFolders + 1 }, acc.2).1
      = sum3 acc.1 := rfl
  rw [hbump]
  omega

theorem sum3_runMainFolder (store : Store) (cfg : Config) (acc : Stats × FS) (m : Str)
    (acc2 : Stats × FS) (h : runMainFolder store cfg acc m = .ok acc2) :
    sum3 acc2.1 = sum3 acc.1 + plannedMainCount store cfg m := by
  unfold runMainFolder at h
  unfold plannedMainCount subFoldersOf
  cases hl : store.listDelim (cfg.s3BasePrefix ++ m ++ ['/']) with
  | error e =>
    simp only [hl] at h
    exact absurd h (by simp)
  | ok pages =>
    simp only [hl] at h
    by_cases hsub : listFolders pages = []
    · rw [if_pos hsub] at h
      simp only [Except.ok.injEq] at h
      subst h
      simp [hsub]
    · rw [if_neg hsub] at h
      cases hf : foldExcept (runSubfolder store cfg) (listFolders pages) acc with
      | error e =>
        simp only [hf] at h
        exact absurd h (by simp)
      | ok accm =>
        simp only [hf, Except.ok.injEq] at h
        subst h
        have hfold := sum3_foldExcept (runSubfolder store cfg) (plannedSubCount store cfg)
          (fun a x a2 hh => sum3_runSubfolder store cfg a x a2 hh)
          (listFolders pages) acc accm hf
        have hbump : sum3 ({ accm.1 with totalFolders := accm.1.totalFolders + 1 }, accm.2).1
            = sum3 accm.1 := rfl
        rw [hbump, hfold]

theorem sum3_downloadFromS3 (store : Store) (cfg : Config) (fs : FS) (st : Stats) (fs2 : FS)
    (h : downloadFromS3 store cfg fs = .ok (st, fs2)) :
    sum3 st = plannedCount store cfg := by
  unfold downloadFromS3 at h
  have := sum3_foldExcept (runMainFolder store cfg) (plannedMainCount store cfg)
    (fun a x a2 hh => sum3_runMainFolder store cfg a x a2 hh)
    cfg.mainFolders (initStats, fs) (st, fs2) h
  simpa [plannedCount, initStats, sum3] using this

theorem statsLe_refl (a : Stats) : statsLe a a := by simp [statsLe]

theorem statsLe_trans {a b c : Stats} (h1 : statsLe a b) (h2 : statsLe b c) : statsLe a c := by
  unfold statsLe at h1 h2 ⊢
  omega

theorem statsLe_tally (st : Stats) (o : Outcome) : statsLe st (tally st o) := by
  cases o <;> simp [tally, statsLe]

theorem statsLe_fetchOne (store : Store) (cfg : Config) (acc : Stats × FS) (k : Str) :
    statsLe acc.1 (fetchOne store cfg acc k).1 :=
  statsLe_tally acc.1 (downloadFile store acc.2 k (localPathOf cfg k)).1

theorem statsLe_foldl_fetchOne (store : Store) (cfg : Config) (items : List Str)
    (acc : Stats × FS) : statsLe acc.1 (items.foldl (fetchOne store cfg) acc).1 := by
  induction items generalizing acc with
  | nil => exact statsLe_refl _
  | cons k ks ih =>
    rw [List.foldl_cons]
    exact statsLe_trans (statsLe_fetchOne store cfg acc k) (ih (fetchOne store cfg acc k))

theorem statsLe_json_fold (store : Store) (cfg : Config) (sub : Str) (jsons : List Str)
    (acc : Stats × FS) :
    statsLe acc.1 ((jsons.foldl (fun a j => fetchOne store cfg a (sub ++ j)) acc)).1 := by
  induction jsons generalizing acc with
  | nil => exact statsLe_refl _
  | cons j js ih =>
    rw [List.foldl_cons]
    exact statsLe_trans (statsLe_fetchOne store cfg acc (sub ++ j)) (ih _)

theorem statsLe_foldExcept {α : Type} (f : (Stats × FS) → α → Except Unit (Stats × FS))
    (hf : ∀ acc x acc2, f acc x = .ok acc2 → statsLe acc.1 acc2.1)
    (l : List α) (acc acc2 : Stats × FS) (h : foldExcept f l acc = .ok acc2) :
    statsLe acc.1 acc2.1 := by
  induction l generalizing acc with
  | nil =>
    simp only [foldExcept, Except.ok.injEq] at h
    subst h
    exact statsLe_refl _
  | cons x xs ih =>
    unfold foldExcept at h
    cases hr : f acc x with
    | error e =>
      simp only [hr] at h
      exact absurd h (by simp)
    | ok accm =>
      simp only [hr] at h
      exact statsLe_trans (hf acc x accm hr) (ih accm h)

theorem statsLe_runTarget (store : Store) (cfg : Config) (sub : Str) (acc : Stats × FS)
    (target : Str) (acc2 : Stats × FS) (h : runTarget store cfg sub acc target = .ok acc2) :
    statsLe acc.1 acc2.1 := by
  unfold runTarget at h
  cases hl : store.listPlain (sub ++ target) with
  | error e =>
    simp only [hl] at h
    exact absurd h (by simp)
  | ok pages =>
    simp only [hl, Except.ok.injEq] at h
    subst h
    exact statsLe_foldl_fetchOne store cfg _ acc

theorem statsLe_runSubfolder (store : Store) (cfg : Config) (acc : Stats × FS) (sub : Str)
    (acc2 : Stats × FS) (h : runSubfolder store cfg acc sub = .ok acc2) :
    statsLe acc.1 acc2.1 := by
  unfold runSubfolder at h
  have h1 : statsLe acc.1
      ({ acc.1 with totalRecordFolders := acc.1.totalRecordFolders + 1 }, acc.2).1 := by
    simp [statsLe]
  have h2 := statsLe_json_fold store cfg sub cfg.jsonFilesToDownload
    ({ acc.1 with totalRecordFolders := acc.1.totalRecordFolders + 1 }, acc.2)
  have h3 := statsLe_foldExcept (runTarget store cfg sub)
    (fun a x a2 hh => statsLe_runTarget store cfg sub a x a2 hh)
    cfg.foldersToDownload _ acc2 h
  exact statsLe_trans (statsLe_trans h1 h2) h3

theorem statsLe_runMainFolder (store : Store) (cfg : Config) (acc : Stats × FS) (m : Str)
    (acc2 : Stats × FS) (h : runMainFolder store cfg acc m = .ok acc2) :
    statsLe acc.1 acc2.1 := by
  unfold runMainFolder at h
  cases hl : store.listDelim (cfg.s3BasePrefix ++ m ++ ['/']) with
  | error e =>
    simp only [hl] at h
    exact absurd h (by simp)
  | ok pages =>
    simp only [hl] at h
    by_cases hsub : listFolders pages = []
    · rw [if_pos hsub] at h
      simp only [Except.ok.injEq] at h
      subst h
      exact statsLe_refl _
    · rw [if_neg hsub] at h
      cases hf : foldExcept (runSubfolder store cfg) (listFolders pages) acc with
      | error e =>
        simp only [hf] at h
        exact absurd h (by simp)
      | ok accm =>
        simp only [hf, Except.ok.injEq] at h
        subst h
        have h1 := statsLe_foldExcept (runSubfolder store cfg)
          (fun a x a2 hh => statsLe_runSubfolder store cfg a x a2 hh)
          (listFolders pages) acc accm hf
        refine statsLe_trans h1 ?_
        simp [statsLe]

/-- C5: tallying a fetched item's outcome increments exactly one of the
three outcome counters (the sum grows by exactly one, with every counter
monotone); every main-folder stage of the run is counter-monotone; and
at the end of any completed run
`downloaded + skipped + failed = plannedCount`, the total number of
TransferItems the run attempted. -/
theorem c5_counters_partition :
    (∀ (st : Stats) (o : Outcome), sum3 (tally st o) = sum3 st + 1 ∧ statsLe st (tally st o))
    ∧ (∀ (store : Store) (cfg : Config) (acc : Stats × FS) (m : Str) (acc2 : Stats × FS),
        runMainFolder store cfg acc m = .ok acc2 → statsLe acc.1 acc2.1)
    ∧ ∀ (store : Store) (cfg : Config) (fs : FS) (st : Stats) (fs2 : FS),
        downloadFromS3 store cfg fs = .ok (st, fs2) →
        st.totalDownloaded + st.totalSkipped + st.totalFailed = plannedCount store cfg :=
  ⟨fun st o => ⟨sum3_tally st o, statsLe_tally st o⟩,
   fun store cfg acc m acc2 h => statsLe_runMainFolder store cfg acc m acc2 h,
   fun store cfg fs st fs2 h => sum3_downloadFromS3 store cfg fs st fs2 h⟩

/-- The statistics produced by the end-to-end demo run. -/
def demoStats : Stats := ⟨2, 0, 1, 1, 0⟩

/-- The filesystem produced by the end-to-end demo run. -/
def demoFS1 : FS where
  files := [strL "out/folder1/rec-1/metadata.json", strL "out/folder1/rec-1/photos/img1.jpg"]
  dirs := [strL "out/folder1/rec-1", strL "out/folder1", strL "out",
    strL "out/folder1/rec-1/photos", strL "out/folder1/rec-1", strL "out/folder1", strL "out"]

/-- Witness for C5 on the end-to-end demo run. -/
theorem c5_counters_partition_witness :
    demoStats.totalDownloaded + demoStats.totalSkipped + demoStats.totalFailed
      = plannedCount demoStore demoConfig :=
  c5_counters_partition.2.2 demoStore demoConfig ⟨[], []⟩ demoStats demoFS1 rfl

theorem counter_foldExcept {α : Type} (μ : Stats → Nat)
    (f : (Stats × FS) → α → Except Unit (Stats × FS)) (g : α → Nat)
    (hf : ∀ acc x acc2, f acc x = .ok acc2 → μ acc2.1 = μ acc.1 + g x)
    (l : List α) (acc acc2 : Stats × FS) (h : foldExcept f l acc = .ok acc2) :
    μ acc2.1 = μ acc.1 + (l.map g).sum := by
  induction l generalizing acc with
  | nil =>
    simp only [foldExcept, Except.ok.injEq] at h
    subst h
    simp
  | cons x xs ih =>
    unfold foldExcept at h
    cases hr : f acc x with
    | error e =>
      simp only [hr] at h
      exact absurd h (by simp)
    | ok accm =>
      simp only [hr] at h
      rw [ih accm h, hf acc x accm hr]
      simp
      omega

theorem counter_foldExcept_const {α : Type} (μ : Stats → Nat)
    (f : (Stats × FS) → α → Except Unit (Stats × FS))
    (hf : ∀ acc x acc2, f acc x = .ok acc2 → μ acc2.1 = μ acc.1)
    (l : List α) (acc acc2 : Stats × FS) (h : foldExcept f l acc = .ok acc2) :
    μ acc2.1 = μ acc.1 := by
  induction l generalizing acc with
  | nil =>
    simp only [foldExcept, Except.ok.injEq] at h
    subst h
    rfl
  | cons x xs ih =>
    unfold foldExcept at h
    cases hr : f acc x with
    | error e =>
      simp only [hr] at h
      exact absurd h (by simp)
    | ok accm =>
      simp only [hr] at h
      rw [ih accm h, hf acc x accm hr]

theorem tally_folders (st : Stats) (o : Outcome) :
    (tally st o).totalFolders = st.totalFolders
    ∧ (tally st o).totalRecordFolders = st.totalRecordFolders := by
  cases o <;> simp [tally]

theorem foldl_fetchOne_folders (store : Store) (cfg : Config) (items : List Str)
    (acc : Stats × FS) :
    (items.foldl (fetchOne store cfg) acc).1.totalFolders = acc.1.totalFolders
    ∧ (items.foldl (fetchOne store cfg) acc).1.totalRecordFolders
      = acc.1.totalRecordFolders := by
  induction items generalizing acc with
  | nil => exact ⟨rfl, rfl⟩
  | cons k ks ih =>
    rw [List.foldl_cons]
    have h1 := tally_folders acc.1 (downloadFile store acc.2 k (localPathOf cfg k)).1
    have h2 := ih (fetchOne store cfg acc k)
    exact ⟨h2.1.trans h1.1, h2.2.trans h1.2⟩

theorem json_fold_folders (store : Store) (cfg : Config) (sub : Str) (jsons : List Str)
    (acc : Stats × FS) :
    (jsons.foldl (fun a j => fetchOne store cfg a (sub ++ j)) acc).1.totalFolders
      = acc.1.totalFolders
    ∧ (jsons.foldl (fun a j => fetchOne store cfg a (sub ++ j)) acc).1.totalRecordFolders
      = acc.1.totalRecordFolders := by
  induction jsons generalizing acc with
  | nil => exact ⟨rfl, rfl⟩
  | cons j js ih =>
    rw [List.foldl_cons]
    have h1 := tally_folders acc.1 (downloadFile store acc.2 (sub ++ j) (localPathOf cfg (sub ++ j))).1
    have h2 := ih (fetchOne store cfg acc (sub ++ j))
    exact ⟨h2.1.trans h1.1, h2.2.trans h1.2⟩

theorem runTarget_folders (store : Store) (cfg : Config) (sub : Str) (acc : Stats × FS)
    (target : Str) (acc2 : Stats × FS) (h : runTarget store cfg sub acc target = .ok acc2) :
    acc2.1.totalFolders = acc.1.totalFolders
    ∧ acc2.1.totalRecordFolders = acc.1.totalRecordFolders := by
  unfold runTarget at h
  cases hl : store.listPlain (sub ++ target) with
  | error e =>
    simp only [hl] at h
    exact absurd h (by simp)
  | ok pages =>
    simp only [hl, Except.ok.injEq] at h
    subst h
    exact foldl_fetchOne_folders store cfg _ acc

theorem runSubfolder_folders (store : Store) (cfg : Config) (acc : Stats × FS) (sub : Str)
    (acc2 : Stats × FS) (h : runSubfolder store cfg acc sub = .ok acc2) :
    acc2.1.totalFolders = acc.1.totalFolders
    ∧ acc2.1.totalRecordFolders = acc.1.totalRecordFolders + 1 := by
  unfold runSubfolder at h
  have hjson := json_fold_folders store cfg sub cfg.jsonFilesToDownload
    ({ acc.1 with totalRecordFolders := acc.1.totalRecordFolders + 1 }, acc.2)
  constructor
  · have hfol := counter_foldExcept_const (fun s => s.totalFolders) (runTarget store cfg sub)
      (fun a x a2 hh => (runTarget_folders store cfg sub a x a2 hh).1)
      cfg.foldersToDownload _ acc2 h
    exact hfol.trans hjson.1
  · have hrec := counter_foldExcept_const (fun s => s.totalRecordFolders) (runTarget store cfg sub)
      (fun a x a2 hh => (runTarget_folders store cfg sub a x a2 hh).2)
      cfg.foldersToDownload _ acc2 h
    exact hrec.trans hjson.2

theorem sum_map_one {α : Type} (l : List α) : (l.map (fun _ => (1 : Nat))).sum = l.length := by
  induction l with
  | nil => rfl
  | cons a as ih =>
    simp [ih]
    omega

theorem runMainFolder_folders (store : Store) (cfg : Config) (acc : Stats × FS) (m : Str)
    (acc2 : Stats × FS) (h : runMainFolder store cfg acc m = .ok acc2) :
    acc2.1.totalFolders
      = acc.1.totalFolders + (if subFoldersOf store cfg m = [] then 0 else 1)
    ∧ acc2.1.totalRecordFolders
      = acc.1.totalRecordFolders + (subFoldersOf store cfg m).length := by
  unfold runMainFolder at h
  unfold subFoldersOf
  cases hl : store.listDelim (cfg.s3BasePrefix ++ m ++ ['/']) with
  | error e =>
    simp only [hl] at h
    exact absurd h (by simp)
  | ok pages =>
    simp only [hl] at h
    by_cases hsub : listFolders pages = []
    · rw [if_pos hsub] at h
      simp only [Except.ok.injEq] at h
      subst h
      simp [hsub]
    · rw [if_neg hsub] at h
      cases hf : foldExcept (runSubfolder store cfg) (listFolders pages) acc with
      | error e =>
        simp only [hf] at h
        exact absurd h (by simp)
      | ok accm =>
        simp only [hf, Except.ok.injEq] at h
        subst h
        have hrec := counter_foldExcept (fun s => s.totalRecordFolders) (runSubfolder store cfg)
          (fun _ => 1) (fun a x a2 hh => (runSubfolder_folders store cfg a x a2 hh).2)
          (listFolders pages) acc accm hf
        have hfol := counter_foldExcept_const (fun s => s.totalFolders) (runSubfolder store cfg)
          (fun a x a2 hh => (runSubfolder_folders store cfg a x a2 hh).1)
          (listFolders pages) acc accm hf
        constructor
        · simp only [if_neg hsub]
          have hfol2 : accm.1.totalFolders = acc.1.totalFolders := hfol
          omega
        · have hrec2 : accm.1.totalRecordFolders
              = acc.1.totalRecordFolders + (List.map (fun _ => (1 : Nat)) (listFolders pages)).sum :=
            hrec
          have hs1 := sum_map_one (listFolders pages)
          show accm.1.totalRecordFolders
            = acc.1.totalRecordFolders + (listFolders pages).length
          omega

/-- The number of ScanTargets the run counts in `totalFolders`: those
whose subfolder listing is non-empty. -/
def processedFolderCount (store : Store) (cfg : Config) : Nat :=
  (cfg.mainFolders.filter (fun m => ! decide (subFoldersOf store cfg m = []))).length

/-- The total number of SubfolderPrefixes the run encounters. -/
def scannedSubfolderCount (store : Store) (cfg : Config) : Nat :=
  (cfg.mainFolders.map (fun m => (subFoldersOf store cfg m).length)).sum

theorem sum_if_empty_filter (store : Store) (cfg : Config) (l : List Str) :
    (l.map (fun m => if subFoldersOf store cfg m = [] then 0 else 1)).sum
      = (l.filter (fun m => ! decide (subFoldersOf store cfg m = []))).length := by
  induction l with
  | nil => rfl
  | cons a as ih =>
    by_cases hp : subFoldersOf store cfg a = []
    · simp [hp, ih, List.filter_cons]
    · simp [hp, ih, List.filter_cons]
      omega

/-- C7 counterexample: a run over one ScanTarget that yields zero
subfolders completes with `totalFolders = 0`: the target is skipped by
`continue` before the `totalFolders++` at the end of the loop body, so
the counter is NOT "incremented once per ScanTarget processed even if
it yielded zero subfolders". -/
theorem c7_counterexample :
    downloadFromS3 failStore demoConfig ⟨[], []⟩ = .ok (initStats, ⟨[], []⟩)
    ∧ demoConfig.mainFolders.length = 1
    ∧ initStats.totalFolders = 0 :=
  ⟨rfl, rfl, rfl⟩

/-- C7 (amended): in any completed run, `totalFolders` equals the number
of ScanTargets whose subfolder listing was non-empty (a target with zero
subfolders is skipped without incrementing it), and
`totalRecordFolders` equals the total number of SubfolderPrefixes
encountered, one increment per subfolder. -/
theorem c7_folder_counters (store : Store) (cfg : Config) (fs : FS) (st : Stats) (fs2 : FS)
    (h : downloadFromS3 store cfg fs = .ok (st, fs2)) :
    st.totalFolders = processedFolderCount store cfg
    ∧ st.totalRecordFolders = scannedSubfolderCount store cfg := by
  unfold downloadFromS3 at h
  have hfol := counter_foldExcept (fun s => s.totalFolders) (runMainFolder store cfg)
    (fun m => if subFoldersOf store cfg m = [] then 0 else 1)
    (fun a x a2 hh => (runMainFolder_folders store cfg a x a2 hh).1)
    cfg.mainFolders (initStats, fs) (st, fs2) h
  have hrec := counter_foldExcept (fun s => s.totalRecordFolders) (runMainFolder store cfg)
    (fun m => (subFoldersOf store cfg m).length)
    (fun a x a2 hh => (runMainFolder_folders store cfg a x a2 hh).2)
    cfg.mainFolders (initStats, fs) (st, fs2) h
  have hfol2 : st.totalFolders
      = 0 + (List.map (fun m => if subFoldersOf store cfg m = [] then 0 else 1)
          cfg.mainFolders).sum := hfol
  have hrec2 : st.totalRecordFolders
      = 0 + (List.map (fun m => (subFoldersOf store cfg m).length) cfg.mainFolders).sum := hrec
  constructor
  · rw [hfol2, Nat.zero_add, sum_if_empty_filter]
    rfl
  · rw [hrec2, Nat.zero_add]
    rfl

/-- Witness for the amended C7 on the end-to-end demo run. -/
theorem c7_folder_counters_witness :
    demoStats.totalFolders = processedFolderCount demoStore demoConfig
    ∧ demoStats.totalRecordFolders = scannedSubfolderCount demoStore demoConfig :=
  c7_folder_counters demoStore demoConfig ⟨[], []⟩ demoStats demoFS1 rfl

theorem runTarget_ok (store : Store) (cfg : Config) (sub : Str) (acc : Stats × FS)
    (target : Str) (hp : ∀ p e, store.listPlain p ≠ .error e) :
    ∃ acc2, runTarget store cfg sub acc target = .ok acc2 := by
  unfold runTarget
  cases hl : store.listPlain (sub ++ target) with
  | error e => exact absurd hl (hp _ e)
  | ok pages => exact ⟨_, rfl⟩

theorem foldExcept_ok {α : Type} (f : (Stats × FS) → α → Except Unit (Stats × FS))
    (hf : ∀ acc x, ∃ acc2, f acc x = .ok acc2) (l : List α) (acc : Stats × FS) :
    ∃ acc2, foldExcept f l acc = .ok acc2 := by
  induction l generalizing acc with
  | nil => exact ⟨acc, rfl⟩
  | cons x xs ih =>
    obtain ⟨accm, hm⟩ := hf acc x
    unfold foldExcept
    rw [hm]
    exact ih accm

theorem runSubfolder_ok (store : Store) (cfg : Config) (acc : Stats × FS) (sub : Str)
    (hp : ∀ p e, store.listPlain p ≠ .error e) :
    ∃ acc2, runSubfolder store cfg acc sub = .ok acc2 := by
  unfold runSubfolder
  exact foldExcept_ok (runTarget store cfg sub)
    (fun a x => runTarget_ok store cfg sub a x hp) cfg.foldersToDownload _

theorem runMainFolder_ok (store : Store) (cfg : Config) (acc : Stats × FS) (m : Str)
    (hd : ∀ p e, store.listDelim p ≠ .error e)
    (hp : ∀ p e, store.listPlain p ≠ .error e) :
    ∃ acc2, runMainFolder store cfg acc m = .ok acc2 := by
  unfold runMainFolder
  cases hl : store.listDelim (cfg.s3BasePrefix ++ m ++ ['/']) with
  | error e => exact absurd hl (hd _ e)
  | ok pages =>
    by_cases hsub : listFolders pages = []
    · exact ⟨acc, by simp only [if_pos hsub]⟩
    · obtain ⟨accm, hm⟩ := foldExcept_ok (runSubfolder store cfg)
        (fun a x => runSubfolder_ok store cfg a x hp) (listFolders pages) acc
      exact ⟨({ accm.1 with totalFolders := accm.1.totalFolders + 1 }, accm.2), by
        simp only [if_neg hsub, hm]⟩

theorem downloadFromS3_ok (store : Store) (cfg : Config) (fs : FS)
    (hd : ∀ p e, store.listDelim p ≠ .error e)
    (hp : ∀ p e, store.listPlain p ≠ .error e) :
    ∃ res, downloadFromS3 store cfg fs = .ok res := by
  unfold downloadFromS3
  exact foldExcept_ok (runMainFolder store cfg)
    (fun a x => runMainFolder_ok store cfg a x hd hp) cfg.mainFolders _

/-- C8: when no listing call rejects, the whole run completes (whatever
the per-item get failures) and the process exits 0; a completed run
always exits 0 — `Failed` outcomes are tallied, never escalated — and
the exit code is 1 exactly when a listing-level error propagates out of
the top-level run. -/
theorem c8_exit_contract (store : Store) (cfg : Config) (fs : FS) :
    ((∀ p e, store.listDelim p ≠ .error e) → (∀ p e, store.listPlain p ≠ .error e) →
      ∃ res, downloadFromS3 store cfg fs = .ok res ∧ scriptExitCode store cfg fs = 0)
    ∧ (∀ res, downloadFromS3 store cfg fs = .ok res → scriptExitCode store cfg fs = 0)
    ∧ (∀ e, downloadFromS3 store cfg fs = .error e → scriptExitCode store cfg fs = 1) := by
  refine ⟨?_, ?_, ?_⟩
  · intro hd hp
    obtain ⟨res, hres⟩ := downloadFromS3_ok store cfg fs hd hp
    refine ⟨res, hres, ?_⟩
    unfold scriptExitCode
    rw [hres]
  · intro res hres
    unfold scriptExitCode
    rw [hres]
  · intro e he
    unfold scriptExitCode
    rw [he]

/-- The demo store with every get call failing: listings succeed, every
planned item ends `Failed`. -/
def failGetStore : Store where
  listDelim := fun p =>
    if p = strL "base/folder1/" then .ok [⟨[strL "base/folder1/rec-1/"], []⟩] else .ok []
  listPlain := fun p =>
    if p = strL "base/folder1/rec-1/photos/" then
      .ok [⟨[], [strL "base/folder1/rec-1/photos/img1.jpg"]⟩]
    else .ok []
  getObject := fun _ => .getError

/-- Witness for C8: a run whose every fetch fails still completes and
exits 0. -/
theorem c8_exit_contract_witness :
    ∃ res, downloadFromS3 failGetStore demoConfig ⟨[], []⟩ = .ok res
      ∧ scriptExitCode failGetStore demoConfig ⟨[], []⟩ = 0 :=
  (c8_exit_contract failGetStore demoConfig ⟨[], []⟩).1
    (by
      intro p e
      simp only [failGetStore]
      split <;> simp)
    (by
      intro p e
      simp only [failGetStore]
      split <;> simp)

theorem pairEq {A B : Type} (p : A × B) (b : B) (h : p.2 = b) : p = (p.1, b) := by
  rw [← h]

theorem fsLe_refl (a : FS) : fsLe a a := ⟨fun _ h => h, fun _ h => h⟩

theorem fsLe_trans {a b c : FS} (h1 : fsLe a b) (h2 : fsLe b c) : fsLe a c :=
  ⟨fun _ h => h2.1 (h1.1 h), fun _ h => h2.2 (h1.2 h)⟩

theorem existsFS_mono {fs fs2 : FS} (h : fsLe fs fs2) {p : Str}
    (he : existsFS fs p = true) : existsFS fs2 p = true := by
  unfold existsFS at he ⊢
  simp only [Bool.or_eq_true, decide_eq_true_eq] at he ⊢
  rcases he with h1 | h1
  · exact Or.inl (h.1 h1)
  · exact Or.inr (h.2 h1)

theorem fsLe_mkdirRec (fs : FS) (d : Str) : fsLe fs (mkdirRec fs d) :=
  ⟨fun _ h => h, fun _ h => List.mem_append.mpr (Or.inl h)⟩

theorem fsLe_mkdirStep (fs : FS) (d : Str) :
    fsLe fs (if existsFS fs d then fs else mkdirRec fs d) := by
  by_cases h : existsFS fs d = true
  · rw [if_pos h]; exact fsLe_refl fs
  · rw [if_neg h]; exact fsLe_mkdirRec fs d

theorem fsLe_addFile (fs : FS) (p : Str) : fsLe fs { fs with files := fs.files ++ [p] } :=
  ⟨fun _ h => List.mem_append.mpr (Or.inl h), fun _ h => h⟩

theorem fsLe_downloadFile (store : Store) (fs : FS) (k p : Str) :
    fsLe fs (downloadFile store fs k p).2 := by
  unfold downloadFile
  by_cases hex : existsFS fs p = true
  · rw [if_pos hex]
    exact fsLe_refl fs
  · rw [if_neg hex]
    cases hg : store.getObject k with
    | getError => exact fsLe_refl fs
    | streamError =>
      exact fsLe_trans (fsLe_mkdirStep fs (dirname p))
        (fsLe_addFile (if existsFS fs (dirname p) then fs else mkdirRec fs (dirname p)) p)
    | ok =>
      exact fsLe_trans (fsLe_mkdirStep fs (dirname p))
        (fsLe_addFile (if existsFS fs (dirname p) then fs else mkdirRec fs (dirname p)) p)

theorem fsLe_fetchOne (store : Store) (cfg : Config) (acc : Stats × FS) (k : Str) :
    fsLe acc.2 (fetchOne store cfg acc k).2 :=
  fsLe_downloadFile store acc.2 k (localPathOf cfg k)

theorem fsLe_foldl_fetchOne (store : Store) (cfg : Config) (items : List Str)
    (acc : Stats × FS) : fsLe acc.2 (items.foldl (fetchOne store cfg) acc).2 := by
  induction items generalizing acc with
  | nil => exact fsLe_refl _
  | cons k ks ih =>
    rw [List.foldl_cons]
    exact fsLe_trans (fsLe_fetchOne store cfg acc k) (ih (fetchOne store cfg acc k))

theorem fsLe_json_fold (store : Store) (cfg : Config) (sub : Str) (jsons : List Str)
    (acc : Stats × FS) :
    fsLe acc.2 ((jsons.foldl (fun a j => fetchOne store cfg a (sub ++ j)) acc)).2 := by
  induction jsons generalizing acc with
  | nil => exact fsLe_refl _
  | cons j js ih =>
    rw [List.foldl_cons]
    exact fsLe_trans (fsLe_fetchOne store cfg acc (sub ++ j)) (ih _)

theorem fsLe_foldExcept {α : Type} (f : (Stats × FS) → α → Except Unit (Stats × FS))
    (hf : ∀ acc x acc2, f acc x = .ok acc2 → fsLe acc.2 acc2.2)
    (l : List α) (acc acc2 : Stats × FS) (h : foldExcept f l acc = .ok acc2) :
    fsLe acc.2 acc2.2 := by
  induction l generalizing acc with
  | nil =>
    simp only [foldExcept, Except.ok.injEq] at h
    subst h
    exact fsLe_refl _
  | cons x xs ih =>
    unfold foldExcept at h
    cases hr : f acc x with
    | error e =>
      simp only [hr] at h
      exact absurd h (by simp)
    | ok accm =>
      simp only [hr] at h
      exact fsLe_trans (hf acc x accm hr) (ih accm h)

theorem fsLe_runTarget (store : Store) (cfg : Config) (sub : Str) (acc : Stats × FS)
    (target : Str) (acc2 : Stats × FS) (h : runTarget store cfg sub acc target = .ok acc2) :
    fsLe acc.2 acc2.2 := by
  unfold runTarget at h
  cases hl : store.listPlain (sub ++ target) with
  | error e =>
    simp only [hl] at h
    exact absurd h (by simp)
  | ok pages =>
    simp only [hl, Except.ok.injEq] at h
    subst h
    exact fsLe_foldl_fetchOne store cfg _ acc

theorem fsLe_runSubfolder (store : Store) (cfg : Config) (acc : Stats × FS) (sub : Str)
    (acc2 : Stats × FS) (h : runSubfolder store cfg acc sub = .ok acc2) :
    fsLe acc.2 acc2.2 := by
  unfold runSubfolder at h
  have h1 := fsLe_json_fold store cfg sub cfg.jsonFilesToDownload
    ({ acc.1 with totalRecordFolders := acc.1.totalRecordFolders + 1 }, acc.2)
  have h2 := fsLe_foldExcept (runTarget store cfg sub)
    (fun a x a2 hh => fsLe_runTarget store cfg sub a x a2 hh)
    cfg.foldersToDownload _ acc2 h
  exact fsLe_trans h1 h2

theorem fsLe_runMainFolder (store : Store) (cfg : Config) (acc : Stats × FS) (m : Str)
    (acc2 : Stats × FS) (h : runMainFolder store cfg acc m = .ok acc2) :
    fsLe acc.2 acc2.2 := by
  unfold runMainFolder at h
  cases hl : store.listDelim (cfg.s3BasePrefix ++ m ++ ['/']) with
  | error e =>
    simp only [hl] at h
    exact absurd h (by simp)
  | ok pages =>
    simp only [hl] at h
    by_cases hsub : listFolders pages = []
    · rw [if_pos hsub] at h
      simp only [Except.ok.injEq] at h
      subst h
      exact fsLe_refl _
    · rw [if_neg hsub] at h
      cases hf : foldExcept (runSubfolder store cfg) (listFolders pages) acc with
      | error e =>
        simp only [hf] at h
        exact absurd h (by simp)
      | ok accm =>
        simp only [hf, Except.ok.injEq] at h
        subst h
        exact fsLe_foldExcept (runSubfolder store cfg)
          (fun a x a2 hh => fsLe_runSubfolder store cfg a x a2 hh)
          (listFolders pages) acc accm hf

theorem downloadFile_stable (store : Store) (fs fs2 : FS) (k p : Str)
    (hle : fsLe (downloadFile store fs k p).2 fs2) :
    (downloadFile store fs2 k p).1 ≠ .success ∧ (downloadFile store fs2 k p).2 = fs2 := by
  by_cases hex2 : existsFS fs2 p = true
  · constructor <;> simp [downloadFile, hex2]
  · have hnotin : ¬ existsFS (downloadFile store fs k p).2 p = true := by
      intro hmem
      exact hex2 (existsFS_mono hle hmem)
    by_cases hex : existsFS fs p = true
    · exfalso
      apply hnotin
      simp [downloadFile, hex]
    · cases hg : store.getObject k with
      | getError => constructor <;> simp [downloadFile, hex2, hg]
      | streamError =>
        exfalso
        apply hnotin
        have hex2b : ¬ (p ∈ fs.files ∨ p ∈ fs.dirs) := by simpa [existsFS] using hex
        simp [downloadFile, existsFS, hex2b, hg]
      | ok =>
        exfalso
        apply hnotin
        have hex2b : ¬ (p ∈ fs.files ∨ p ∈ fs.dirs) := by simpa [existsFS] using hex
        simp [downloadFile, existsFS, hex2b, hg]

theorem tally_not_success_downloaded (st : Stats) (o : Outcome) (h : o ≠ .success) :
    (tally st o).totalDownloaded = st.totalDownloaded := by
  cases o with
  | success => exact absurd rfl h
  | skipped => rfl
  | failed => rfl

theorem foldl_fetchOne_stable (store : Store) (cfg : Config) (items : List Str) :
    ∀ (acc : Stats × FS) (st2 : Stats) (fs2 : FS),
      fsLe (items.foldl (fetchOne store cfg) acc).2 fs2 →
      (items.foldl (fetchOne store cfg) (st2, fs2)).2 = fs2
      ∧ (items.foldl (fetchOne store cfg) (st2, fs2)).1.totalDownloaded
        = st2.totalDownloaded := by
  induction items with
  | nil => exact fun acc st2 fs2 _ => ⟨rfl, rfl⟩
  | cons k ks ih =>
    intro acc st2 fs2 hle
    rw [List.foldl_cons] at hle ⊢
    have hmono := fsLe_foldl_fetchOne store cfg ks (fetchOne store cfg acc k)
    have hle1 : fsLe (fetchOne store cfg acc k).2 fs2 := fsLe_trans hmono hle
    obtain ⟨hs1, hs2⟩ := downloadFile_stable store acc.2 fs2 k (localPathOf cfg k) hle1
    have heq : fetchOne store cfg (st2, fs2) k
        = (tally st2 (downloadFile store fs2 k (localPathOf cfg k)).1, fs2) := by
      unfold fetchOne
      rw [pairEq (tally st2 (downloadFile store fs2 k (localPathOf cfg k)).1,
        (downloadFile store fs2 k (localPathOf cfg k)).2) fs2 hs2]
    rw [heq]
    obtain ⟨hihA, hihB⟩ := ih (fetchOne store cfg acc k)
      (tally st2 (downloadFile store fs2 k (localPathOf cfg k)).1) fs2 hle
    refine ⟨hihA, ?_⟩
    rw [hihB, tally_not_success_downloaded st2 _ hs1]

theorem json_fold_stable (store : Store) (cfg : Config) (sub : Str) (jsons : List Str) :
    ∀ (acc : Stats × FS) (st2 : Stats) (fs2 : FS),
      fsLe ((jsons.foldl (fun a j => fetchOne store cfg a (sub ++ j)) acc)).2 fs2 →
      (jsons.foldl (fun a j => fetchOne store cfg a (sub ++ j)) (st2, fs2)).2 = fs2
      ∧ (jsons.foldl (fun a j => fetchOne store cfg a (sub ++ j)) (st2, fs2)).1.totalDownloaded
        = st2.totalDownloaded := by
  induction jsons with
  | nil => exact fun acc st2 fs2 _ => ⟨rfl, rfl⟩
  | cons j js ih =>
    intro acc st2 fs2 hle
    rw [List.foldl_cons] at hle ⊢
    have hmono := fsLe_json_fold store cfg sub js (fetchOne store cfg acc (sub ++ j))
    have hle1 : fsLe (fetchOne store cfg acc (sub ++ j)).2 fs2 := fsLe_trans hmono hle
    obtain ⟨hs1, hs2⟩ := downloadFile_stable store acc.2 fs2 (sub ++ j)
      (localPathOf cfg (sub ++ j)) hle1
    have heq : fetchOne store cfg (st2, fs2) (sub ++ j)
        = (tally st2 (downloadFile store fs2 (sub ++ j) (localPathOf cfg (sub ++ j))).1, fs2) := by
      unfold fetchOne
      rw [pairEq (tally st2 (downloadFile store fs2 (sub ++ j) (localPathOf cfg (sub ++ j))).1,
        (downloadFile store fs2 (sub ++ j) (localPathOf cfg (sub ++ j))).2) fs2 hs2]
    rw [heq]
    obtain ⟨hihA, hihB⟩ := ih (fetchOne store cfg acc (sub ++ j))
      (tally st2 (downloadFile store fs2 (sub ++ j) (localPathOf cfg (sub ++ j))).1) fs2 hle
    refine ⟨hihA, ?_⟩
    rw [hihB, tally_not_success_downloaded st2 _ hs1]

theorem foldExcept_stable {α : Type} (f : (Stats × FS) → α → Except Unit (Stats × FS))
    (hmono : ∀ acc x acc2, f acc x = .ok acc2 → fsLe acc.2 acc2.2)
    (hstable : ∀ acc x acc2, f acc x = .ok acc2 → ∀ st2 fs2, fsLe acc2.2 fs2 →
      ∃ st2', f (st2, fs2) x = .ok (st2', fs2)
        ∧ st2'.totalDownloaded = st2.totalDownloaded)
    (l : List α) :
    ∀ (acc acc1 : Stats × FS), foldExcept f l acc = .ok acc1 →
      ∀ (st2 : Stats) (fs2 : FS), fsLe acc1.2 fs2 →
      ∃ st2', foldExcept f l (st2, fs2) = .ok (st2', fs2)
        ∧ st2'.totalDownloaded = st2.totalDownloaded := by
  induction l with
  | nil =>
    intro acc acc1 h st2 fs2 hle
    exact ⟨st2, rfl, rfl⟩
  | cons x xs ih =>
    intro acc acc1 h st2 fs2 hle
    unfold foldExcept at h
    cases hr : f acc x with
    | error e =>
      simp only [hr] at h
      exact absurd h (by simp)
    | ok accm =>
      simp only [hr] at h
      have hmono2 := fsLe_foldExcept f hmono xs accm acc1 h
      have hle2 : fsLe accm.2 fs2 := fsLe_trans hmono2 hle
      obtain ⟨st2m, hstep, hdl⟩ := hstable acc x accm hr st2 fs2 hle2
      obtain ⟨st2f, hrest, hdl2⟩ := ih accm acc1 h st2m fs2 hle
      refine ⟨st2f, ?_, hdl2.trans hdl⟩
      unfold foldExcept
      simp only [hstep]
      exact hrest

theorem runTarget_stable (store : Store) (cfg : Config) (sub : Str) (acc : Stats × FS)
    (target : Str) (acc1 : Stats × FS)
    (h : runTarget store cfg sub acc target = .ok acc1) (st2 : Stats) (fs2 : FS)
    (hle : fsLe acc1.2 fs2) :
    ∃ st2', runTarget store cfg sub (st2, fs2) target = .ok (st2', fs2)
      ∧ st2'.totalDownloaded = st2.totalDownloaded := by
  unfold runTarget at h ⊢
  cases hl : store.listPlain (sub ++ target) with
  | error e =>
    simp only [hl] at h
    exact absurd h (by simp)
  | ok pages =>
    simp only [hl] at h ⊢
    simp only [Except.ok.injEq] at h
    subst h
    obtain ⟨hA, hB⟩ := foldl_fetchOne_stable store cfg
      ((listAllFiles pages).filter (fun k => ! decide (k.getLast? = some '/')))
      acc st2 fs2 hle
    refine ⟨(((listAllFiles pages).filter
      (fun k => ! decide (k.getLast? = some '/'))).foldl (fetchOne store cfg) (st2, fs2)).1,
      ?_, hB⟩
    rw [pairEq _ fs2 hA]

theorem runSubfolder_stable (store : Store) (cfg : Config) (acc : Stats × FS) (sub : Str)
    (acc1 : Stats × FS) (h : runSubfolder store cfg acc sub = .ok acc1)
    (st2 : Stats) (fs2 : FS) (hle : fsLe acc1.2 fs2) :
    ∃ st2', runSubfolder store cfg (st2, fs2) sub = .ok (st2', fs2)
      ∧ st2'.totalDownloaded = st2.totalDownloaded := by
  unfold runSubfolder at h ⊢
  have hmonoF := fsLe_foldExcept (runTarget store cfg sub)
    (fun a x a2 hh => fsLe_runTarget store cfg sub a x a2 hh)
    cfg.foldersToDownload _ acc1 h
  have hleJ : fsLe (cfg.jsonFilesToDownload.foldl (fun a j => fetchOne store cfg a (sub ++ j))
      ({ acc.1 with totalRecordFolders := acc.1.totalRecordFolders + 1 }, acc.2)).2 fs2 :=
    fsLe_trans hmonoF hle
  obtain ⟨hJ2, hJdl⟩ := json_fold_stable store cfg sub cfg.jsonFilesToDownload
    ({ acc.1 with totalRecordFolders := acc.1.totalRecordFolders + 1 }, acc.2)
    ({ st2 with totalRecordFolders := st2.totalRecordFolders + 1 }) fs2 hleJ
  obtain ⟨st2t, hT, hTdl⟩ := foldExcept_stable (runTarget store cfg sub)
    (fun a x a2 hh => fsLe_runTarget store cfg sub a x a2 hh)
    (fun a x a2 hh st2x fs2x hlex => runTarget_stable store cfg sub a x a2 hh st2x fs2x hlex)
    cfg.foldersToDownload _ acc1 h
    ((cfg.jsonFilesToDownload.foldl (fun a j => fetchOne store cfg a (sub ++ j))
      ({ st2 with totalRecordFolders := st2.totalRecordFolders + 1 }, fs2)).1) fs2 hle
  refine ⟨st2t, ?_, ?_⟩
  · show foldExcept (runTarget store cfg sub) cfg.foldersToDownload
        (cfg.jsonFilesToDownload.foldl (fun a j => fetchOne store cfg a (sub ++ j))
          ({ st2 with totalRecordFolders := st2.totalRecordFolders + 1 }, fs2))
      = .ok (st2t, fs2)
    rw [pairEq (cfg.jsonFilesToDownload.foldl (fun a j => fetchOne store cfg a (sub ++ j))
      ({ st2 with totalRecordFolders := st2.totalRecordFolders + 1 }, fs2)) fs2 hJ2]
    exact hT
  · exact hTdl.trans hJdl

theorem runMainFolder_stable (store : Store) (cfg : Config) (acc : Stats × FS) (m : Str)
    (acc1 : Stats × FS) (h : runMainFolder store cfg acc m = .ok acc1)
    (st2 : Stats) (fs2 : FS) (hle : fsLe acc1.2 fs2) :
    ∃ st2', runMainFolder store cfg (st2, fs2) m = .ok (st2', fs2)
      ∧ st2'.totalDownloaded = st2.totalDownloaded := by
  unfold runMainFolder at h ⊢
  cases hl : store.listDelim (cfg.s3BasePrefix ++ m ++ ['/']) with
  | error e =>
    simp only [hl] at h
    exact absurd h (by simp)
  | ok pages =>
    simp only [hl] at h ⊢
    by_cases hsub : listFolders pages = []
    · rw [if_pos hsub] at h
      simp only [Except.ok.injEq] at h
      rw [if_pos hsub]
      exact ⟨st2, rfl, rfl⟩
    · rw [if_neg hsub] at h
      rw [if_neg hsub]
      cases hf : foldExcept (runSubfolder store cfg) (listFolders pages) acc with
      | error e =>
        simp only [hf] at h
        exact absurd h (by simp)
      | ok accm =>
        simp only [hf, Except.ok.injEq] at h
        have haccm2 : accm.2 = acc1.2 := by rw [← h]
        obtain ⟨st2m, hstep, hdl⟩ := foldExcept_stable (runSubfolder store cfg)
          (fun a x a2 hh => fsLe_runSubfolder store cfg a x a2 hh)
          (fun a x a2 hh st2x fs2x hlex => runSubfolder_stable store cfg a x a2 hh st2x fs2x hlex)
          (listFolders pages) acc accm hf st2 fs2 (haccm2 ▸ hle)
        refine ⟨{ st2m with totalFolders := st2m.totalFolders + 1 }, ?_, hdl⟩
        simp only [hstep]

/-- C4: running the whole fetch pass a second time against the local
filesystem produced by a completed first pass, with the remote store
unchanged, completes with zero `Downloaded` outcomes, leaves the
filesystem (files and directories) exactly as the first pass left it,
and tallies the same total number of items, now all `Skipped` or
`Failed` (every item the first pass materialized is skipped by the
existence check). -/
theorem c4_second_run_idempotent (store : Store) (cfg : Config) (fs : FS)
    (st1 : Stats) (fs1 : FS) (h : downloadFromS3 store cfg fs = .ok (st1, fs1)) :
    ∃ st2, downloadFromS3 store cfg fs1 = .ok (st2, fs1)
      ∧ st2.totalDownloaded = 0
      ∧ st2.totalSkipped + st2.totalFailed
        = st1.totalDownloaded + st1.totalSkipped + st1.totalFailed := by
  have h' := h
  unfold downloadFromS3 at h'
  obtain ⟨st2, h2, hdl⟩ := foldExcept_stable (runMainFolder store cfg)
    (fun a x a2 hh => fsLe_runMainFolder store cfg a x a2 hh)
    (fun a x a2 hh st2x fs2x hlex => runMainFolder_stable store cfg a x a2 hh st2x fs2x hlex)
    cfg.mainFolders (initStats, fs) (st1, fs1) h' initStats fs1 (fsLe_refl fs1)
  have hrun2 : downloadFromS3 store cfg fs1 = .ok (st2, fs1) := h2
  have hdl0 : st2.totalDownloaded = 0 := hdl
  have e1 := sum3_downloadFromS3 store cfg fs st1 fs1 h
  have e2 := sum3_downloadFromS3 store cfg fs1 st2 fs1 hrun2
  refine ⟨st2, hrun2, hdl0, ?_⟩
  unfold sum3 at e1 e2
  omega

/-- Witness for C4 on the end-to-end demo run: the second pass over the
files created by the first pass downloads nothing and changes nothing. -/
theorem c4_second_run_idempotent_witness :
    ∃ st2, downloadFromS3 demoStore demoConfig demoFS1 = .ok (st2, demoFS1)
      ∧ st2.totalDownloaded = 0
      ∧ st2.totalSkipped + st2.totalFailed
        = demoStats.totalDownloaded + demoStats.totalSkipped + demoStats.totalFailed :=
  c4_second_run_idempotent demoStore demoConfig ⟨[], []⟩ demoStats demoFS1 rfl
